import Mathlib

/-!
A verification development for the job_garden repository: a shallow
embedding of its JSON store (`src/files.py`, `src/utils.py`), its domain
model (`src/vacancy.py`), its filter/rank pipeline (`src/utils.py`) and
its paginated API collector (`src/api.py`), together with theorems about
the behaviours these modules implement.

JSON data is modelled by the inductive `JValue` (JSON numbers are
restricted to integers, which is all the repository ever stores), and a
Python dict by an association list with distinct keys, looked up by first
match.
-/

/-- A JSON value, as produced by `json.load` / consumed by `json.dump`.
`null` also stands for Python's `None`. -/
inductive JValue where
  | null : JValue
  | bool (b : Bool) : JValue
  | num (n : Int) : JValue
  | str (s : String) : JValue
  | arr (l : List JValue) : JValue
  | obj (l : List (String × JValue)) : JValue

/-- A stored record: a Python dict (mapping) with string keys.  Keys are
unique, so first-match lookup agrees with dict lookup. -/
abbrev Rec := List (String × JValue)

/-- Python's `v.get(key)`: the value at `key`, or `None` (here `Option.none`)
when absent. -/
def dictGet (v : Rec) (k : String) : Option JValue :=
  (v.find? (fun p => p.1 == k)).map (fun p => p.2)

/-- Python truthiness of a JSON value: `None`, `False`, `0`, `""`, `[]`
and `{}` are falsy, everything else truthy. -/
def truthy : JValue → Bool
  | .null => false
  | .bool b => b
  | .num n => n != 0
  | .str s => s != ""
  | .arr l => !l.isEmpty
  | .obj l => !l.isEmpty

/-- Python `str.strip()`: drop whitespace from both ends (structurally over
the character list, so that it evaluates by `rfl`/`decide`). -/
def pyStrip (s : String) : String :=
  ⟨((s.data.dropWhile Char.isWhitespace).reverse.dropWhile Char.isWhitespace).reverse⟩

/-- Python `str.upper()` (ASCII, which is all the repository compares). -/
def pyUpper (s : String) : String :=
  ⟨s.data.map Char.toUpper⟩

/-- A non-empty all-digit character list read as a decimal number. -/
def digitsVal : List Char → Option Nat
  | [] => none
  | c :: cs =>
    if (c :: cs).all (fun ch => ch.isDigit) then
      some ((c :: cs).foldl (fun a ch => a * 10 + (ch.toNat - 48)) 0)
    else none

mutual
/-- Python `repr` of a JSON value (used by `str` on non-string values). -/
def pyRepr : JValue → String
  | .null => "None"
  | .bool true => "True"
  | .bool false => "False"
  | .num n => toString n
  | .str s => "\x27" ++ s ++ "\x27"
  | .arr l => "[" ++ String.intercalate ", " (pyReprList l) ++ "]"
  | .obj l => "\x7b" ++ String.intercalate ", " (pyReprObj l) ++ "\x7d"

def pyReprList : List JValue → List String
  | [] => []
  | v :: rest => pyRepr v :: pyReprList rest

def pyReprObj : List (String × JValue) → List String
  | [] => []
  | (k, v) :: rest => ("\x27" ++ k ++ "\x27: " ++ pyRepr v) :: pyReprObj rest
end

/-- Python `str` of a JSON value: identity on strings, `repr` otherwise. -/
def pyStr : JValue → String
  | .str s => s
  | v => pyRepr v

/-- Python `int(value)` on a JSON value: identity on ints, `True/False ↦ 1/0`,
numeric-string parsing (optional sign, surrounding whitespace), and a
`TypeError`/`ValueError` (here `none`) on everything else. -/
def pyInt : JValue → Option Int
  | .num n => some n
  | .bool b => some (if b then 1 else 0)
  | .str s =>
    match (pyStrip s).data with
    | '-' :: rest => (digitsVal rest).map (fun n => -(n : Int))
    | '+' :: rest => (digitsVal rest).map (fun n => (n : Int))
    | t => (digitsVal t).map (fun n => (n : Int))
  | _ => none

/-- `src/utils.py::pick_identity`: the record's dedup identity — the first
of `id`, `url`, `alternate_url` whose value is a string that is non-empty
after stripping (the unstripped value is returned); else `None`. -/
def pick_identity (v : Rec) : Option String :=
  match dictGet v "id" with
  | some (.str s) => if pyStrip s ≠ "" then some s else pickFromUrl v
  | _ => pickFromUrl v
where
  pickFromUrl (v : Rec) : Option String :=
    match dictGet v "url" with
    | some (.str s) => if pyStrip s ≠ "" then some s else pickFromAlt v
    | _ => pickFromAlt v
  pickFromAlt (v : Rec) : Option String :=
    match dictGet v "alternate_url" with
    | some (.str s) => if pyStrip s ≠ "" then some s else none
    | _ => none

/-- The identity index built by `save_to_json`: a finite map from identity
strings to positions in the stored list (Python `Dict[str, int]`). -/
def Idx : Type := String → Option Nat

/-- `index[ident] = i`. -/
def idxInsert (idx : Idx) (k : String) (i : Nat) : Idx :=
  fun s => if s = k then some i else idx s

/-- The first loop of `src/files.py::JSONSaver.save_to_json`: walk the
stored list from position `start`, recording `index[ident] = i` for each
record with a derivable identity (later positions overwrite earlier ones,
as in the Python dict assignment). -/
def buildIndexAux : List Rec → Nat → Idx → Idx
  | [], _, idx => idx
  | v :: rest, start, idx =>
    buildIndexAux rest (start + 1)
      (match pick_identity v with
       | some s => idxInsert idx s start
       | none => idx)

/-- The index over the whole stored list (first loop of `save_to_json`). -/
def buildIndex (l : List Rec) : Idx :=
  buildIndexAux l 0 (fun _ => none)

/-- The second loop of `src/files.py::JSONSaver.save_to_json`: for each new
record, overwrite in place when its identity is already indexed, else
append (and index the new position when the identity is derivable).
The source also skips non-mapping elements with a warning; inputs here are
typed as mappings, which is the case every claim speaks about. -/
def upsertLoop (current : List Rec) (idx : Idx) : List Rec → List Rec
  | [] => current
  | v :: rest =>
    match pick_identity v with
    | some s =>
      match idx s with
      | some i => upsertLoop (current.set i v) idx rest
      | none => upsertLoop (current ++ [v]) (idxInsert idx s current.length) rest
    | none => upsertLoop (current ++ [v]) idx rest

/-- `src/files.py::JSONSaver.save_to_json`, as a pure function from the
stored sequence (`_read_all`) and the new records to the sequence written
back (`_write_all`). -/
def save_to_json (current news : List Rec) : List Rec :=
  upsertLoop current (buildIndex current) news

/-- The multiset of derivable identities of a stored sequence, in order. -/
def identities (l : List Rec) : List String :=
  l.filterMap pick_identity

/-- The invariant tying the in-memory index to the stored list inside
`save_to_json`: every index entry points at a record carrying that
identity, and every identity present in the list is indexed. -/
def GoodIdx (current : List Rec) (idx : Idx) : Prop :=
  (∀ s i, idx s = some i →
    ∃ h : i < current.length, pick_identity (current.get ⟨i, h⟩) = some s) ∧
  (∀ s, s ∈ identities current → (idx s).isSome)

/-- `src/vacancy.py::Vacancy`: the domain record, with the field types the
validators establish. -/
structure Vacancy where
  id : Option String
  name : String
  city : String
  salary_from : Option Int
  salary_to : Option Int
  currency : Option String
  requirement : Option String
  responsibility : Option String
  url : String
  alternate_url : Option String
  employer : Option String
deriving DecidableEq, Repr

/-- `Vacancy._validate_id`: `str(value).strip()`, empty (or `None` input)
becomes `None`. -/
def validate_id (value : JValue) : Option String :=
  match value with
  | .null => none
  | v => let s := pyStrip (pyStr v); if s = "" then none else some s

/-- `Vacancy._validate_str`: required string with a default for empty/`None`. -/
def validate_str (value : JValue) (default : String) : String :=
  let s := match value with | .null => "" | v => pyStrip (pyStr v)
  if s = "" then default else s

/-- `Vacancy._coerce_optional_str`: optional string, empty → `None`. -/
def coerce_optional_str (value : JValue) : Option String :=
  match value with
  | .null => none
  | v => let s := pyStrip (pyStr v); if s = "" then none else some s

/-- `Vacancy._validate_salary`: `int(value)` when that succeeds and is
non-negative, else `None` (negative and non-numeric inputs normalize to
absent). -/
def validate_salary (value : JValue) : Option Int :=
  match pyInt value with
  | none => none
  | some iv => if 0 ≤ iv then some iv else none

/-- `Vacancy._normalize_currency`: uppercased stripped string, falsy input
or empty result → `None`. -/
def normalize_currency (value : JValue) : Option String :=
  if truthy value then
    let s := pyUpper (pyStrip (pyStr value))
    if s = "" then none else some s
  else none

/-- `Vacancy._validate_url`: required string, empty/`None` → `"-"`. -/
def validate_url (value : JValue) : String :=
  let s := match value with | .null => "" | v => pyStrip (pyStr v)
  if s = "" then "-" else s

/-- `Vacancy.__init__`: construct from raw (dynamically typed) values,
running every validator. -/
def Vacancy.init (id name city salary_from salary_to currency requirement
    responsibility url alternate_url employer : JValue) : Vacancy where
  id := validate_id id
  name := validate_str name "Вакансия без названия"
  city := validate_str city "Город не указан"
  salary_from := validate_salary salary_from
  salary_to := validate_salary salary_to
  currency := normalize_currency currency
  requirement := coerce_optional_str requirement
  responsibility := coerce_optional_str responsibility
  url := validate_url url
  alternate_url := coerce_optional_str alternate_url
  employer := coerce_optional_str employer

/-- `Vacancy._effective_salary`: floor average of the two bounds when both
are present (Python `//`), the present bound when only one is, else `0`. -/
def Vacancy.effective_salary (v : Vacancy) : Int :=
  match v.salary_from, v.salary_to with
  | some a, some b => Int.fdiv (a + b) 2
  | some a, none => a
  | none, some b => b
  | none, none => 0

/-- `Vacancy.__eq__`: equality by effective salary alone. -/
def Vacancy.eqBy (v w : Vacancy) : Bool :=
  v.effective_salary == w.effective_salary

/-- `Vacancy.__lt__`: strict order by effective salary alone. -/
def Vacancy.ltBy (v w : Vacancy) : Bool :=
  decide (v.effective_salary < w.effective_salary)

/-- `None`-or-string as a JSON value. -/
def optStr : Option String → JValue
  | some s => .str s
  | none => .null

/-- `None`-or-int as a JSON value. -/
def optInt : Option Int → JValue
  | some n => .num n
  | none => .null

/-- `Vacancy.to_dict`: the hh.ru-shaped mapping stored by `JSONSaver`. -/
def Vacancy.to_dict (v : Vacancy) : Rec :=
  [("id", optStr v.id),
   ("name", .str v.name),
   ("area", .obj [("name", .str v.city)]),
   ("salary", .obj [("from", optInt v.salary_from), ("to", optInt v.salary_to),
                    ("currency", optStr v.currency)]),
   ("snippet", .obj [("requirement", optStr v.requirement),
                     ("responsibility", optStr v.responsibility)]),
   ("url", .str v.url),
   ("alternate_url", optStr v.alternate_url),
   ("employer", match v.employer with
                | some e => if e = "" then .null else .obj [("name", .str e)]
                | none => .null)]

/-- Python `data.get(k) or {}` followed by attribute access on the result:
missing/falsy → the empty mapping, a truthy mapping → itself, a truthy
non-mapping → `AttributeError` on the later `.get` (modelled as `none`). -/
def getMapping (data : Rec) (k : String) : Option Rec :=
  match dictGet data k with
  | none => some []
  | some v => if truthy v then (match v with | .obj l => some l | _ => none) else some []

/-- Python `str(data.get(k) or "")`. -/
def pyStrOrEmpty (j : Option JValue) : String :=
  match j with
  | some v => if truthy v then pyStr v else ""
  | none => ""

/-- `Vacancy.from_hh_dict`: build a `Vacancy` from one hh.ru mapping;
`none` models the raising paths (a truthy non-mapping under `area` /
`salary` / `snippet` / `employer`). -/
def Vacancy.from_hh_dict (data : Rec) : Option Vacancy := do
  let area ← getMapping data "area"
  let salary ← getMapping data "salary"
  let snippet ← getMapping data "snippet"
  let employer ← getMapping data "employer"
  pure (Vacancy.init
    (match dictGet data "id" with
     | none => .null
     | some .null => .null
     | some v => .str (pyStr v))
    (.str (pyStrip (pyStrOrEmpty (dictGet data "name"))))
    (.str (pyStrip (pyStrOrEmpty (dictGet area "name"))))
    ((dictGet salary "from").getD .null)
    ((dictGet salary "to").getD .null)
    ((dictGet salary "currency").getD .null)
    ((dictGet snippet "requirement").getD .null)
    ((dictGet snippet "responsibility").getD .null)
    (.str (pyStrip (pyStrOrEmpty (dictGet data "url"))))
    (let s := pyStrip (pyStrOrEmpty (dictGet data "alternate_url"))
     if s = "" then .null else .str s)
    (let s := pyStrip (pyStrOrEmpty (dictGet employer "name"))
     if s = "" then .null else .str s))

/-- The invariants `Vacancy.__init__` establishes on every field: a
"validly constructed" Vacancy in the spec's sense. -/
structure Vacancy.Valid (v : Vacancy) : Prop where
  id_ok : ∀ s, v.id = some s → pyStrip s = s ∧ s ≠ ""
  name_ok : pyStrip v.name = v.name ∧ v.name ≠ ""
  city_ok : pyStrip v.city = v.city ∧ v.city ≠ ""
  from_ok : ∀ n, v.salary_from = some n → 0 ≤ n
  to_ok : ∀ n, v.salary_to = some n → 0 ≤ n
  currency_ok : ∀ s, v.currency = some s → pyStrip s = s ∧ s ≠ "" ∧ pyUpper s = s
  requirement_ok : ∀ s, v.requirement = some s → pyStrip s = s ∧ s ≠ ""
  responsibility_ok : ∀ s, v.responsibility = some s → pyStrip s = s ∧ s ≠ ""
  url_ok : pyStrip v.url = v.url ∧ v.url ≠ ""
  alternate_ok : ∀ s, v.alternate_url = some s → pyStrip s = s ∧ s ≠ ""
  employer_ok : ∀ s, v.employer = some s → pyStrip s = s ∧ s ≠ ""

/-- `src/utils.py::sort_get_top_vacancies`: stable descending sort by
effective salary (Python `sorted(..., reverse=True)`, which compares with
`__lt__` and keeps ties in input order), then the first `n` where
`n = max(0, top_n)`; `n = 0` short-circuits to `[]`. -/
def sort_get_top_vacancies (vacancies : List Vacancy) (top_n : Int) : List Vacancy :=
  let n : Int := max 0 top_n
  if n = 0 then []
  else (vacancies.mergeSort (fun x y => !(Vacancy.ltBy x y))).take n.toNat

/-- Python truthiness of an `Optional[str]`. -/
def optTruthy : Option String → Bool
  | some s => s != ""
  | none => false

/-- Python `v.get(key) == u` for a string `u`: true exactly when the stored
value is that string. -/
def strEq (j : Option JValue) (u : String) : Bool :=
  match j with
  | some (.str s) => s == u
  | _ => false

/-- The predicate `should_delete` of `JSONSaver.delete_vacancy`. -/
def should_delete (vacancy_id url : Option String) (v : Rec) : Bool :=
  (optTruthy vacancy_id && (pyStr ((dictGet v "id").getD (.str "")) == vacancy_id.getD ""))
  || (optTruthy url && (strEq (dictGet v "url") (url.getD "")
       || strEq (dictGet v "alternate_url") (url.getD "")))

/-- Outcome of a successful `delete_vacancy` call: the returned count, the
resulting stored sequence, and whether `_write_all` was invoked. -/
structure DeleteOutcome where
  deleted : Nat
  store : List Rec
  wrote : Bool

/-- `src/files.py::JSONSaver.delete_vacancy`, as a pure function of the
stored sequence and the two keyword selectors; `Except.error` models the
`ValueError` raised before the store is read. -/
def delete_vacancy (store : List Rec) (vacancy_id url : Option String) :
    Except String DeleteOutcome :=
  if !optTruthy vacancy_id && !optTruthy url then
    .error "Нужно указать vacancy_id или url для удаления."
  else
    let after := store.filter (fun v => !should_delete vacancy_id url v)
    let deleted := store.length - after.length
    .ok ⟨deleted, after, deleted != 0⟩

/-- The observable states of the backing file as `_read_all` distinguishes
them: absent, zero-byte, undecodable JSON, an OS read error, or a decoded
JSON value. -/
inductive FileState where
  | missing
  | emptyFile
  | invalidJson
  | ioError
  | jsonVal (v : JValue)

/-- `src/files.py::JSONSaver._read_all`: total (every failure is caught);
only a decoded JSON array yields its elements, everything else yields `[]`. -/
def read_all : FileState → List JValue
  | .missing => []
  | .emptyFile => []
  | .invalidJson => []
  | .ioError => []
  | .jsonVal (.arr l) => l
  | .jsonVal _ => []

/-- One page of the upstream API: the `items` batch and the optional
`pages` total (absent when the response JSON lacks the key). -/
structure HHResponse (α : Type) where
  items : List α
  pages : Option Int

/-- The `per_page` clamp in `HeadHunterAPI.__init__`: `max(1, min(p, 100))`. -/
def initPerPage (p : Int) : Nat :=
  (max 1 (min p 100)).toNat

/-- The `while` loop of `src/api.py::HeadHunterAPI.load_vacancies`.
`resp page per_page` is the (successful) JSON response for that request;
a non-200 response raises in the source and is outside this model. -/
def loadLoop {α : Type} (resp : Nat → Nat → HHResponse α) (per_page max_items : Nat)
    (items : List α) (page : Nat) : List α :=
  if h1 : items.length < max_items then
    let data := resp page (min per_page (max_items - items.length))
    if h2 : data.items.isEmpty then items
    else
      match data.pages with
      | none => items ++ data.items
      | some pt =>
        if (page : Int) ≥ pt - 1 then items ++ data.items
        else loadLoop resp per_page max_items (items ++ data.items) (page + 1)
  else items
termination_by max_items - items.length
decreasing_by
  rw [List.length_append]
  refine Nat.sub_lt_sub_left h1 (Nat.lt_add_of_pos_right (List.length_pos.mpr ?_))
  simpa using h2

/-- `src/api.py::HeadHunterAPI.load_vacancies`: run the loop from an empty
accumulator and page 0. -/
def load_vacancies {α : Type} (resp : Nat → Nat → HHResponse α)
    (per_page max_items : Nat) : List α :=
  loadLoop resp per_page max_items [] 0

/-- Demo raw record: first occurrence of id "A1". -/
def recA1v1 : Rec :=
  [("id", .str "A1"), ("name", .str "Python Dev"),
   ("url", .str "https://api.hh.ru/vacancies/A1")]

/-- Demo raw record with id "B2". -/
def recB2 : Rec :=
  [("id", .str "B2"), ("name", .str "Go Dev"),
   ("url", .str "https://api.hh.ru/vacancies/B2")]

/-- Demo raw record: second occurrence of id "A1", different fields. -/
def recA1v3 : Rec :=
  [("id", .str "A1"), ("name", .str "Senior Python Dev"),
   ("url", .str "https://api.hh.ru/vacancies/A1-new")]

/-- Demo vacancy with both salary bounds, valid by construction. -/
def vacBoth : Vacancy :=
  ⟨some "1", "Dev", "Moscow", some 100, some 201, some "RUR",
   some "req", some "resp", "https://api.hh.ru/vacancies/1", some "https://hh.ru/vacancy/1", some "Acme"⟩

/-- Demo vacancy with only the lower bound and every optional field absent. -/
def vacFrom : Vacancy :=
  ⟨none, "Dev2", "Kazan", some 300, none, none, none, none, "-", none, none⟩

/-- Demo vacancy with only the upper bound. -/
def vacTo : Vacancy :=
  ⟨some "3", "Dev3", "Tula", none, some 50, none, none, none, "-", none, none⟩

/-- Demo vacancy with no salary at all. -/
def vacNone : Vacancy :=
  ⟨some "4", "Dev4", "Omsk", none, none, none, none, none, "-", none, none⟩

/-- Demo vacancy tying with `vacBoth` on effective salary (150). -/
def vacTie : Vacancy :=
  ⟨some "5", "Dev5", "Perm", some 150, none, none, none, none, "-", none, none⟩

/-- Demo list with a tie on effective salary (300, 150, 150). -/
def listDemo : List Vacancy :=
  [vacBoth, vacTie, vacFrom]

/-- Demo paginated source: page `p` yields the single item `p`, and the
response declares 3 total pages. -/
def respDemo : Nat → Nat → HHResponse Nat :=
  fun p _ => ⟨[p], some 3⟩

/-! ### Helper lemmas -/

theorem validate_salary_nonneg (j : JValue) (n : Int)
    (h : validate_salary j = some n) : 0 ≤ n := by
  unfold validate_salary at h
  cases hp : pyInt j with
  | none => rw [hp] at h; simp at h
  | some iv =>
    rw [hp] at h
    by_cases hiv : 0 ≤ iv
    · simp only [hiv, if_true] at h
      injection h with h
      omega
    · simp [hiv] at h

theorem length_sub_filter_not (p : Rec → Bool) (l : List Rec) :
    l.length - (l.filter (fun v => !p v)).length = l.countP p := by
  have h1 := List.length_eq_countP_add_countP (p := p) l
  have h2 : (l.filter (fun v => !p v)).length = l.countP (fun v => !p v) :=
    (List.countP_eq_length_filter _ _).symm
  have h3 : l.countP (fun v => !p v) = l.countP (fun a => ¬ p a) := by
    apply List.countP_congr
    intro a _
    simp
  omega

/-! ### C4: effective salary and comparison -/

/-- C4: for every Vacancy, the effective salary is the (floor) average of
the two bounds when both are present, the present bound when exactly one
is, and 0 when both are absent; and this value is the sole basis of the
`__eq__`/`__lt__` comparisons between two Vacancy values. -/
theorem C4_effective_salary_sole_basis (v w : Vacancy) :
    (∀ a b, v.salary_from = some a → v.salary_to = some b →
       v.effective_salary = Int.fdiv (a + b) 2) ∧
    (∀ a, v.salary_from = some a → v.salary_to = none → v.effective_salary = a) ∧
    (∀ b, v.salary_from = none → v.salary_to = some b → v.effective_salary = b) ∧
    (v.salary_from = none → v.salary_to = none → v.effective_salary = 0) ∧
    (Vacancy.eqBy v w = true ↔ v.effective_salary = w.effective_salary) ∧
    (Vacancy.ltBy v w = true ↔ v.effective_salary < w.effective_salary) := by
  refine ⟨?_, ?_, ?_, ?_, ?_, ?_⟩
  · intro a b ha hb; simp [Vacancy.effective_salary, ha, hb]
  · intro a ha hb; simp [Vacancy.effective_salary, ha, hb]
  · intro b ha hb; simp [Vacancy.effective_salary, ha, hb]
  · intro ha hb; simp [Vacancy.effective_salary, ha, hb]
  · simp [Vacancy.eqBy]
  · simp [Vacancy.ltBy]

/-- Witness for C4 at concrete vacancies covering all three salary shapes. -/
theorem C4_witness :
    vacBoth.effective_salary = Int.fdiv (100 + 201) 2 ∧
    vacFrom.effective_salary = 300 ∧
    vacTo.effective_salary = 50 ∧
    vacNone.effective_salary = 0 :=
  ⟨(C4_effective_salary_sole_basis vacBoth vacBoth).1 100 201 rfl rfl,
   (C4_effective_salary_sole_basis vacFrom vacFrom).2.1 300 rfl rfl,
   (C4_effective_salary_sole_basis vacTo vacTo).2.2.1 50 rfl rfl,
   (C4_effective_salary_sole_basis vacNone vacNone).2.2.2.1 rfl rfl⟩

/-! ### C9: constructed vacancies have non-negative effective salary -/

/-- C9: every Vacancy built by `__init__` has a non-negative effective
salary: `_validate_salary` normalizes negative and non-numeric inputs to
absent, and `_effective_salary` then averages/selects non-negative bounds
or returns 0. -/
theorem C9_init_effective_salary_nonneg
    (i n c sf st cur req resp u au e : JValue) :
    0 ≤ (Vacancy.init i n c sf st cur req resp u au e).effective_salary := by
  unfold Vacancy.effective_salary
  have hf := validate_salary_nonneg sf
  have ht := validate_salary_nonneg st
  cases hsf : validate_salary sf with
  | none =>
    cases hst : validate_salary st with
    | none => simp [Vacancy.init, hsf, hst]
    | some b => simp [Vacancy.init, hsf, hst]; exact ht b hst
  | some a =>
    cases hst : validate_salary st with
    | none => simp [Vacancy.init, hsf, hst]; exact hf a hsf
    | some b =>
      simp only [Vacancy.init, hsf, hst]
      have ha := hf a hsf
      have hb := ht b hst
      have h2 : (0 : Int) ≤ a + b := by omega
      exact Int.fdiv_nonneg h2 (by omega)

/-! ### C8: read-all never raises -/

/-- C8: `_read_all` is total over every file state: a missing file, a
zero-byte file, invalid JSON, an OS read error, and a non-array JSON value
all yield the empty sequence, while a JSON array yields its elements. -/
theorem C8_read_all_total :
    read_all .missing = [] ∧
    read_all .emptyFile = [] ∧
    read_all .invalidJson = [] ∧
    read_all .ioError = [] ∧
    (∀ l, read_all (.jsonVal (.arr l)) = l) ∧
    (∀ v, (∀ l, v ≠ .arr l) → read_all (.jsonVal v) = []) := by
  refine ⟨rfl, rfl, rfl, rfl, fun l => rfl, ?_⟩
  intro v hv
  cases v with
  | arr l => exact absurd rfl (hv l)
  | null => rfl
  | bool b => rfl
  | num n => rfl
  | str s => rfl
  | obj l => rfl

/-- Witness for C8 at a concrete non-array JSON value. -/
theorem C8_witness : read_all (.jsonVal (.obj [("items", .arr [])])) = [] :=
  C8_read_all_total.2.2.2.2.2 (.obj [("items", .arr [])]) (fun l h => by injection h)

/-! ### C10: empty-string selectors are treated as absent -/

/-- C10: `delete_vacancy` with an empty-string selector (and the other
selector absent) behaves exactly like the call with no selectors at all —
the same `ValueError`, raised before the store is read (the outcome does
not depend on the store). -/
theorem C10_delete_empty_string_selector (store store' : List Rec) :
    delete_vacancy store (some "") none = delete_vacancy store' none none ∧
    delete_vacancy store none (some "") = delete_vacancy store' none none ∧
    delete_vacancy store none none =
      .error "Нужно указать vacancy_id или url для удаления." := by
  refine ⟨?_, ?_, rfl⟩ <;> rfl

/-! ### C7: delete contract -/

/-- C7: `delete_vacancy` raises the validation error exactly when neither a
(non-empty) id selector nor a (non-empty) url selector is given — in that
case the outcome is independent of the store — and otherwise removes
exactly the records matched by `should_delete` (id equality, or url
equality against `url`/`alternate_url`), returns their count, and performs
the write-back exactly when that count is non-zero. -/
theorem C7_delete_contract (store : List Rec) (vid url : Option String) :
    ((optTruthy vid = false ∧ optTruthy url = false) ↔
      delete_vacancy store vid url =
        .error "Нужно указать vacancy_id или url для удаления.") ∧
    (optTruthy vid = true ∨ optTruthy url = true →
      delete_vacancy store vid url =
        .ok ⟨store.countP (should_delete vid url),
             store.filter (fun v => !should_delete vid url v),
             store.countP (should_delete vid url) != 0⟩) := by
  cases hv : optTruthy vid <;> cases hu : optTruthy url <;>
    simp [delete_vacancy, hv, hu, length_sub_filter_not]

/-- Witness for C7: deleting by the id "A1" from a two-record store removes
exactly that record, returns count 1, and write-back happens. -/
theorem C7_witness :
    delete_vacancy [recA1v1, recB2] (some "A1") none = .ok ⟨1, [recB2], true⟩ := by
  have h := (C7_delete_contract [recA1v1, recB2] (some "A1") none).2 (Or.inl rfl)
  exact h.trans rfl

/-! ### C1: collector stop conditions -/

/-- Counterexample to C1 as stated: against a source whose every response
has a non-empty one-item batch and no declared total-pages count, the load
with `max_items = 10` stops after the very first response with a single
item — it does not increment the page and continue as the claim requires
for this case. -/
theorem C1_counterexample :
    load_vacancies (fun _ _ => ⟨[0], none⟩) 50 10 = [0] := by
  simp [load_vacancies, loadLoop]

/-- C1 (amended): one iteration of the collector loop stops exactly under
four conditions — the loop guard (accumulated count has reached
`max_items`, checked before each request), an empty item batch, a response
with no declared total-pages count, or a declared count with
`page >= total_pages - 1` — and in every other case it increments `page`
and continues with the batch appended. -/
theorem C1_load_stop_conditions {α : Type} (resp : Nat → Nat → HHResponse α)
    (pp maxI : Nat) (items : List α) (page : Nat) :
    (load_vacancies resp pp maxI = loadLoop resp pp maxI [] 0) ∧
    (maxI ≤ items.length → loadLoop resp pp maxI items page = items) ∧
    (items.length < maxI →
      ((resp page (min pp (maxI - items.length))).items = [] →
        loadLoop resp pp maxI items page = items) ∧
      ((resp page (min pp (maxI - items.length))).items ≠ [] →
        (resp page (min pp (maxI - items.length))).pages = none →
        loadLoop resp pp maxI items page =
          items ++ (resp page (min pp (maxI - items.length))).items) ∧
      (∀ pt, (resp page (min pp (maxI - items.length))).items ≠ [] →
        (resp page (min pp (maxI - items.length))).pages = some pt →
        pt - 1 ≤ (page : Int) →
        loadLoop resp pp maxI items page =
          items ++ (resp page (min pp (maxI - items.length))).items) ∧
      (∀ pt, (resp page (min pp (maxI - items.length))).items ≠ [] →
        (resp page (min pp (maxI - items.length))).pages = some pt →
        (page : Int) < pt - 1 →
        loadLoop resp pp maxI items page =
          loadLoop resp pp maxI (items ++ (resp page (min pp (maxI - items.length))).items)
            (page + 1))) := by
  refine ⟨rfl, ?_, ?_⟩
  · intro h
    rw [loadLoop, dif_neg (by omega)]
  · intro h
    refine ⟨?_, ?_, ?_, ?_⟩
    · intro hempty
      have hb : (resp page (min pp (maxI - items.length))).items.isEmpty = true := by
        simp [hempty]
      rw [loadLoop, dif_pos h, dif_pos hb]
    · intro hne hpages
      have hb : ¬ (resp page (min pp (maxI - items.length))).items.isEmpty = true := by
        simpa using hne
      rw [loadLoop, dif_pos h, dif_neg hb, hpages]
    · intro pt hne hpages hstop
      have hb : ¬ (resp page (min pp (maxI - items.length))).items.isEmpty = true := by
        simpa using hne
      rw [loadLoop, dif_pos h, dif_neg hb, hpages]
      show (if (page : Int) ≥ pt - 1
          then items ++ (resp page (min pp (maxI - items.length))).items
          else loadLoop resp pp maxI
            (items ++ (resp page (min pp (maxI - items.length))).items) (page + 1)) =
        items ++ (resp page (min pp (maxI - items.length))).items
      rw [if_pos (by omega)]
    · intro pt hne hpages hgo
      have hb : ¬ (resp page (min pp (maxI - items.length))).items.isEmpty = true := by
        simpa using hne
      rw [loadLoop, dif_pos h, dif_neg hb, hpages]
      show (if (page : Int) ≥ pt - 1
          then items ++ (resp page (min pp (maxI - items.length))).items
          else loadLoop resp pp maxI
            (items ++ (resp page (min pp (maxI - items.length))).items) (page + 1)) =
        loadLoop resp pp maxI
          (items ++ (resp page (min pp (maxI - items.length))).items) (page + 1)
      rw [if_neg (by omega)]

/-- Witness for C1: against the three-page demo source, the loop at page 0
(no stop condition holding) continues to page 1 with the batch appended,
and a `max_items` of 0 stops before any request. -/
theorem C1_witness :
    loadLoop respDemo 50 10 [] 0 = loadLoop respDemo 50 10 ([] ++ [0]) 1 ∧
    loadLoop respDemo 50 0 [] 0 = [] :=
  ⟨((C1_load_stop_conditions respDemo 50 10 [] 0).2.2 (by decide)).2.2.2 3
      (by decide) rfl (by decide),
   (C1_load_stop_conditions respDemo 50 0 [] 0).2.1 (by decide)⟩

/-! ### C6: top-N is a stable descending sort -/

/-- The descending comparison `sorted(..., reverse=True)` effectively sorts
by: keep `x` before `y` unless `x < y` (so ties keep input order). -/
theorem descBy_trans (a b c : Vacancy) :
    (!(Vacancy.ltBy a b)) = true → (!(Vacancy.ltBy b c)) = true →
    (!(Vacancy.ltBy a c)) = true := by
  simp [Vacancy.ltBy]
  omega

theorem descBy_total (a b : Vacancy) :
    ((!(Vacancy.ltBy a b)) || (!(Vacancy.ltBy b a))) = true := by
  simp [Vacancy.ltBy]
  omega

/-- Stability of the descending sort: filtering by any predicate whose
matches are pairwise tied (so the comparison holds both ways between them)
commutes with `mergeSort`, i.e. tied records keep their input order. -/
theorem filter_mergeSort_stable (L : List Vacancy) (p : Vacancy → Bool)
    (hpw : (L.filter p).Pairwise (fun x y => (!(Vacancy.ltBy x y)) = true)) :
    (L.mergeSort (fun x y => !(Vacancy.ltBy x y))).filter p = L.filter p := by
  have hsub : List.Sublist (L.filter p) (L.mergeSort (fun x y => !(Vacancy.ltBy x y))) :=
    List.sublist_mergeSort descBy_trans descBy_total hpw (List.filter_sublist L)
  have hself : (L.filter p).filter p = L.filter p :=
    List.filter_eq_self.mpr (fun a ha => List.of_mem_filter ha)
  have hsub2 : List.Sublist (L.filter p)
      ((L.mergeSort (fun x y => !(Vacancy.ltBy x y))).filter p) := by
    have h2 := hsub.filter p
    rwa [hself] at h2
  have hperm : List.Perm ((L.mergeSort (fun x y => !(Vacancy.ltBy x y))).filter p)
      (L.filter p) :=
    (List.mergeSort_perm L _).filter p
  exact (hsub2.eq_of_length hperm.length_eq.symm).symm

/-- C6: `sort_get_top_vacancies L n` is empty for `n ≤ 0`; for
`n ≥ len(L)` it is exactly the stable descending sort of `L` by effective
salary: a permutation of `L`, sorted non-increasingly, in which the
records of any fixed effective salary appear in their original relative
order. -/
theorem C6_top_n_sorted_stable (L : List Vacancy) (n : Int) :
    (n ≤ 0 → sort_get_top_vacancies L n = []) ∧
    ((L.length : Int) ≤ n →
      sort_get_top_vacancies L n = L.mergeSort (fun x y => !(Vacancy.ltBy x y)) ∧
      (sort_get_top_vacancies L n).Perm L ∧
      (sort_get_top_vacancies L n).Pairwise
        (fun x y => y.effective_salary ≤ x.effective_salary) ∧
      (∀ c : Int, (sort_get_top_vacancies L n).filter
          (fun v => v.effective_salary == c) =
        L.filter (fun v => v.effective_salary == c))) := by
  constructor
  · intro hn
    unfold sort_get_top_vacancies
    rw [if_pos (by omega)]
  · intro hlen
    have hall : sort_get_top_vacancies L n = L.mergeSort (fun x y => !(Vacancy.ltBy x y)) := by
      unfold sort_get_top_vacancies
      by_cases hn0 : (max 0 n : Int) = 0
      · rw [if_pos hn0]
        have hL : L = [] := by
          have : L.length = 0 := by omega
          exact List.eq_nil_of_length_eq_zero this
        rw [hL, List.mergeSort_nil]
      · rw [if_neg hn0]
        apply List.take_of_length_le
        rw [List.length_mergeSort]
        omega
    refine ⟨hall, ?_, ?_, ?_⟩
    · rw [hall]
      exact List.mergeSort_perm L _
    · rw [hall]
      have hs := @List.sorted_mergeSort Vacancy (fun x y => !(Vacancy.ltBy x y))
        descBy_trans descBy_total L
      refine hs.imp ?_
      intro a b hab
      simp [Vacancy.ltBy] at hab
      omega
    · intro c
      rw [hall]
      apply filter_mergeSort_stable
      apply List.pairwise_of_forall_mem_list
      intro a ha b hb
      have ha2 := List.of_mem_filter ha
      have hb2 := List.of_mem_filter hb
      simp [Vacancy.ltBy] at ha2 hb2 ⊢
      omega

/-- Witness for C6 on the demo list with a tie: negative `n` yields `[]`,
and a large `n` yields the full stable descending sort (the two
150-salary records keep their input order). -/
theorem C6_witness :
    sort_get_top_vacancies listDemo (-1) = [] ∧
    sort_get_top_vacancies listDemo 5 =
      listDemo.mergeSort (fun x y => !(Vacancy.ltBy x y)) ∧
    listDemo.mergeSort (fun x y => !(Vacancy.ltBy x y)) = [vacFrom, vacBoth, vacTie] :=
  ⟨(C6_top_n_sorted_stable listDemo (-1)).1 (by omega),
   ((C6_top_n_sorted_stable listDemo 5).2 (by decide)).1,
   by simp [List.mergeSort, List.merge, listDemo, vacBoth, vacTie, vacFrom,
     Vacancy.ltBy, Vacancy.effective_salary]⟩

/-! ### C5: serialization round-trip -/

/-- C5: for every validly constructed Vacancy, rebuilding it from its
serialized mapping (`from_hh_dict` of `to_dict`) reproduces every
observable field exactly. -/
theorem C5_roundtrip (v : Vacancy) (h : v.Valid) :
    Vacancy.from_hh_dict (Vacancy.to_dict v) = some v := by
  obtain ⟨hid, hname, hcity, hfrom, hto, hcur, hreq, hresp, hurl, halt, hemp⟩ := h
  obtain ⟨id, name, city, sf, st, cur, req, resp, url, alt, emp⟩ := v
  simp only at hid hname hcity hfrom hto hcur hreq hresp hurl halt hemp
  cases emp with
  | none =>
    simp [Vacancy.from_hh_dict, Vacancy.to_dict, getMapping, dictGet, truthy,
      pyStrOrEmpty, pyStr, Vacancy.init, Vacancy.mk.injEq]
    refine ⟨?_, ?_, ?_, ?_, ?_, ?_, ?_, ?_, ?_, ?_, ?_⟩
    · cases id with
      | none => rfl
      | some s =>
        have hs := hid s rfl
        simp [validate_id, optStr, pyStr, hs.1, hs.2]
    · simp [validate_str, pyStr, hname.1, hname.2]
    · simp [validate_str, pyStr, hcity.1, hcity.2]
    · cases sf with
      | none => rfl
      | some n => simp [validate_salary, optInt, pyInt, hfrom n rfl]
    · cases st with
      | none => rfl
      | some n => simp [validate_salary, optInt, pyInt, hto n rfl]
    · cases cur with
      | none => rfl
      | some c =>
        have hc := hcur c rfl
        simp [normalize_currency, optStr, truthy, pyStr, hc.1, hc.2.1, hc.2.2]
    · cases req with
      | none => rfl
      | some s =>
        have hs := hreq s rfl
        simp [coerce_optional_str, optStr, pyStr, hs.1, hs.2]
    · cases resp with
      | none => rfl
      | some s =>
        have hs := hresp s rfl
        simp [coerce_optional_str, optStr, pyStr, hs.1, hs.2]
    · simp [validate_url, pyStr, hurl.1, hurl.2]
    · cases alt with
      | none => rfl
      | some a =>
        have ha := halt a rfl
        simp [coerce_optional_str, optStr, truthy, pyStr, ha.1, ha.2]
    · rfl
  | some e =>
    have he := hemp e rfl
    simp [Vacancy.from_hh_dict, Vacancy.to_dict, getMapping, dictGet, truthy,
      pyStrOrEmpty, pyStr, Vacancy.init, Vacancy.mk.injEq, he.2]
    refine ⟨?_, ?_, ?_, ?_, ?_, ?_, ?_, ?_, ?_, ?_, ?_⟩
    · cases id with
      | none => rfl
      | some s =>
        have hs := hid s rfl
        simp [validate_id, optStr, pyStr, hs.1, hs.2]
    · simp [validate_str, pyStr, hname.1, hname.2]
    · simp [validate_str, pyStr, hcity.1, hcity.2]
    · cases sf with
      | none => rfl
      | some n => simp [validate_salary, optInt, pyInt, hfrom n rfl]
    · cases st with
      | none => rfl
      | some n => simp [validate_salary, optInt, pyInt, hto n rfl]
    · cases cur with
      | none => rfl
      | some c =>
        have hc := hcur c rfl
        simp [normalize_currency, optStr, truthy, pyStr, hc.1, hc.2.1, hc.2.2]
    · cases req with
      | none => rfl
      | some s =>
        have hs := hreq s rfl
        simp [coerce_optional_str, optStr, pyStr, hs.1, hs.2]
    · cases resp with
      | none => rfl
      | some s =>
        have hs := hresp s rfl
        simp [coerce_optional_str, optStr, pyStr, hs.1, hs.2]
    · simp [validate_url, pyStr, hurl.1, hurl.2]
    · cases alt with
      | none => rfl
      | some a =>
        have ha := halt a rfl
        simp [coerce_optional_str, optStr, truthy, pyStr, ha.1, ha.2]
    · simp [coerce_optional_str, pyStr, he.1, he.2]

/-- Witness for C5 at a concrete fully-populated vacancy. -/
theorem C5_witness : Vacancy.from_hh_dict (Vacancy.to_dict vacBoth) = some vacBoth :=
  C5_roundtrip vacBoth
    (by refine ⟨?_, ?_, ?_, ?_, ?_, ?_, ?_, ?_, ?_, ?_, ?_⟩ <;> simp [vacBoth] <;> decide)

/-! ### C2 and C3: store upsert invariants -/

theorem mem_identities {s : String} {l : List Rec} :
    s ∈ identities l ↔ ∃ r ∈ l, pick_identity r = some s := by
  simp [identities, List.mem_filterMap]

theorem mem_identities_of_getElem {l : List Rec} {i : Nat} (hi : i < l.length)
    {s : String} (hp : pick_identity (l.get ⟨i, hi⟩) = some s) :
    s ∈ identities l :=
  mem_identities.mpr ⟨l.get ⟨i, hi⟩, List.get_mem l i hi, hp⟩

theorem identities_set {l : List Rec} {i : Nat} {v : Rec} {s : String}
    (hi : i < l.length) (hold : pick_identity (l.get ⟨i, hi⟩) = some s)
    (hnew : pick_identity v = some s) :
    identities (l.set i v) = identities l := by
  induction l generalizing i with
  | nil => simp at hi
  | cons a t ih =>
    cases i with
    | zero =>
      simp only [List.get] at hold
      simp only [List.set]
      unfold identities
      rw [List.filterMap_cons_some hnew, List.filterMap_cons_some hold]
    | succ j =>
      simp only [List.get] at hold
      have hj : j < t.length := by simpa using hi
      simp only [List.set]
      unfold identities
      cases hpa : pick_identity a with
      | none =>
        rw [List.filterMap_cons_none hpa, List.filterMap_cons_none hpa]
        exact ih hj hold
      | some sa =>
        rw [List.filterMap_cons_some hpa, List.filterMap_cons_some hpa]
        exact congrArg (sa :: ·) (ih hj hold)

theorem identities_nodup_unique_pos {l : List Rec} (hnd : (identities l).Nodup)
    {i j : Nat} (hi : i < l.length) (hj : j < l.length) {s : String}
    (hpi : pick_identity (l.get ⟨i, hi⟩) = some s)
    (hpj : pick_identity (l.get ⟨j, hj⟩) = some s) : i = j := by
  induction l generalizing i j with
  | nil => simp at hi
  | cons a t ih =>
    have hnd' : (identities t).Nodup := by
      unfold identities at hnd ⊢
      cases hpa : pick_identity a with
      | none => rwa [List.filterMap_cons_none hpa] at hnd
      | some sa =>
        rw [List.filterMap_cons_some hpa] at hnd
        exact hnd.of_cons
    cases i with
    | zero =>
      cases j with
      | zero => rfl
      | succ j2 =>
        exfalso
        simp only [List.get] at hpi hpj
        have hj2 : j2 < t.length := by simpa using hj
        have hmem : s ∈ identities t := mem_identities_of_getElem hj2 hpj
        unfold identities at hnd
        rw [List.filterMap_cons_some hpi] at hnd
        exact (List.nodup_cons.mp hnd).1 hmem
    | succ i2 =>
      cases j with
      | zero =>
        exfalso
        simp only [List.get] at hpi hpj
        have hi2 : i2 < t.length := by simpa using hi
        have hmem : s ∈ identities t := mem_identities_of_getElem hi2 hpi
        unfold identities at hnd
        rw [List.filterMap_cons_some hpj] at hnd
        exact (List.nodup_cons.mp hnd).1 hmem
      | succ j2 =>
        simp only [List.get] at hpi hpj
        have hi2 : i2 < t.length := by simpa using hi
        have hj2 : j2 < t.length := by simpa using hj
        exact congrArg Nat.succ (ih hnd' hi2 hj2 hpi hpj)

theorem buildIndexAux_not_mem {l : List Rec} {s : String}
    (h : s ∉ identities l) (start : Nat) (idx : Idx) :
    buildIndexAux l start idx s = idx s := by
  induction l generalizing start idx with
  | nil => rfl
  | cons v t ih =>
    unfold buildIndexAux
    cases hpv : pick_identity v with
    | none =>
      have ht : s ∉ identities t := by
        intro hmem
        exact h (by unfold identities; rwa [List.filterMap_cons_none hpv])
      simp only
      exact ih ht (start + 1) idx
    | some sv =>
      have hsv : s ≠ sv := by
        intro he
        subst he
        exact h (by unfold identities; rw [List.filterMap_cons_some hpv]; exact List.mem_cons_self s _)
      have ht : s ∉ identities t := by
        intro hmem
        exact h (by unfold identities; rw [List.filterMap_cons_some hpv]; exact List.mem_cons_of_mem _ hmem)
      simp only
      rw [ih ht (start + 1) (idxInsert idx sv start)]
      unfold idxInsert
      rw [if_neg hsv]

theorem buildIndexAux_isSome {l : List Rec} {s : String}
    (h : s ∈ identities l) (start : Nat) (idx : Idx) :
    (buildIndexAux l start idx s).isSome := by
  induction l generalizing start idx with
  | nil => simp [identities] at h
  | cons v t ih =>
    unfold buildIndexAux
    cases hpv : pick_identity v with
    | none =>
      have ht : s ∈ identities t := by
        unfold identities at h
        rwa [List.filterMap_cons_none hpv] at h
      simp only
      exact ih ht (start + 1) idx
    | some sv =>
      simp only
      by_cases hmem : s ∈ identities t
      · exact ih hmem (start + 1) (idxInsert idx sv start)
      · have hs : s = sv := by
          unfold identities at h
          rw [List.filterMap_cons_some hpv] at h
          rcases List.mem_cons.mp h with he | hmem2
          · exact he
          · exact absurd hmem2 hmem
        rw [buildIndexAux_not_mem hmem (start + 1) (idxInsert idx sv start)]
        unfold idxInsert
        rw [if_pos hs]
        rfl

theorem buildIndexAux_sound {l : List Rec} {s : String} {i : Nat} (start : Nat) (idx : Idx)
    (h : buildIndexAux l start idx s = some i) :
    idx s = some i ∨
      ∃ j, ∃ hj : j < l.length, start + j = i ∧ pick_identity (l.get ⟨j, hj⟩) = some s := by
  induction l generalizing start idx with
  | nil => exact Or.inl h
  | cons v t ih =>
    unfold buildIndexAux at h
    cases hpv : pick_identity v with
    | none =>
      rw [hpv] at h
      rcases ih (start + 1) idx h with hl | ⟨j, hj, hji, hpj⟩
      · exact Or.inl hl
      · exact Or.inr ⟨j + 1, by simpa using hj, by omega, hpj⟩
    | some sv =>
      rw [hpv] at h
      rcases ih (start + 1) (idxInsert idx sv start) h with hl | ⟨j, hj, hji, hpj⟩
      · unfold idxInsert at hl
        by_cases hs : s = sv
        · rw [if_pos hs] at hl
          injection hl with hl
          refine Or.inr ⟨0, by simp, by omega, ?_⟩
          simp only [List.get]
          rw [hpv, hs]
        · rw [if_neg hs] at hl
          exact Or.inl hl
      · exact Or.inr ⟨j + 1, by simpa using hj, by omega, hpj⟩

theorem GoodIdx_buildIndex (l : List Rec) : GoodIdx l (buildIndex l) := by
  constructor
  · intro s i h
    rcases buildIndexAux_sound 0 (fun _ => none) h with hl | ⟨j, hj, hji, hpj⟩
    · exact absurd hl (by simp)
    · have hij : j = i := by omega
      subst hij
      exact ⟨hj, hpj⟩
  · intro s h
    exact buildIndexAux_isSome h 0 (fun _ => none)

theorem identities_append_single (l : List Rec) (v : Rec) :
    identities (l ++ [v]) = identities l ++ (pick_identity v).toList := by
  unfold identities
  rw [List.filterMap_append]
  cases hpv : pick_identity v with
  | none => rw [List.filterMap_cons_none hpv]; rfl
  | some s => rw [List.filterMap_cons_some hpv]; rfl

theorem GoodIdx_append_none {current : List Rec} {idx : Idx} {v : Rec}
    (hg : GoodIdx current idx) (hpv : pick_identity v = none) :
    GoodIdx (current ++ [v]) idx := by
  constructor
  · intro s i h
    obtain ⟨hi, hpi⟩ := hg.1 s i h
    refine ⟨by simp; omega, ?_⟩
    simp only [List.get_eq_getElem] at hpi ⊢
    rwa [List.getElem_append_left hi]
  · intro s h
    apply hg.2 s
    rwa [identities_append_single, hpv, Option.toList_none, List.append_nil] at h

theorem GoodIdx_set {current : List Rec} {idx : Idx} {v : Rec} {s0 : String} {i : Nat}
    (hg : GoodIdx current idx) (hidx : idx s0 = some i) (hpv : pick_identity v = some s0) :
    GoodIdx (current.set i v) idx := by
  obtain ⟨hi, hpi⟩ := hg.1 s0 i hidx
  constructor
  · intro s j h
    obtain ⟨hj, hpj⟩ := hg.1 s j h
    refine ⟨by simpa using hj, ?_⟩
    simp only [List.get_eq_getElem] at hpj ⊢
    by_cases hij : j = i
    · subst hij
      rw [List.getElem_set_self]
      simp only [List.get_eq_getElem] at hpi
      have : s = s0 := by
        have := hpj.symm.trans hpi
        injection this
      rw [hpv, this]
    · rwa [List.getElem_set_ne (by omega)]
  · intro s h
    apply hg.2 s
    rwa [identities_set hi hpi hpv] at h

theorem GoodIdx_append_new {current : List Rec} {idx : Idx} {v : Rec} {s0 : String}
    (hg : GoodIdx current idx) (hpv : pick_identity v = some s0) (hidx : idx s0 = none) :
    GoodIdx (current ++ [v]) (idxInsert idx s0 current.length) := by
  constructor
  · intro s i h
    unfold idxInsert at h
    by_cases hs : s = s0
    · rw [if_pos hs] at h
      injection h with h
      subst h
      refine ⟨by simp, ?_⟩
      simp only [List.get_eq_getElem]
      rw [List.getElem_concat_length, hpv, hs]
      rfl
    · rw [if_neg hs] at h
      obtain ⟨hi, hpi⟩ := hg.1 s i h
      refine ⟨by simp; omega, ?_⟩
      simp only [List.get_eq_getElem] at hpi ⊢
      rwa [List.getElem_append_left hi]
  · intro s h
    rw [identities_append_single, hpv] at h
    unfold idxInsert
    by_cases hs : s = s0
    · rw [if_pos hs]; rfl
    · rw [if_neg hs]
      apply hg.2 s
      rcases List.mem_append.mp h with h1 | h2
      · exact h1
      · simp at h2
        exact absurd h2 hs

theorem upsertLoop_identities (news : List Rec) :
    ∀ (current : List Rec) (idx : Idx), GoodIdx current idx →
    (identities current).Nodup →
    (identities (upsertLoop current idx news)).Nodup ∧
    (∀ s, s ∈ identities (upsertLoop current idx news) ↔
      s ∈ identities current ∨ s ∈ identities news) := by
  induction news with
  | nil =>
    intro current idx hg hnd
    refine ⟨hnd, ?_⟩
    intro s
    simp [upsertLoop, identities]
  | cons v rest ih =>
    intro current idx hg hnd
    cases hpv : pick_identity v with
    | none =>
      simp only [upsertLoop, hpv]
      have hids : identities (current ++ [v]) = identities current := by
        rw [identities_append_single, hpv, Option.toList_none, List.append_nil]
      have h := ih (current ++ [v]) idx (GoodIdx_append_none hg hpv) (by rwa [hids])
      refine ⟨h.1, ?_⟩
      intro s
      rw [h.2 s, hids]
      unfold identities
      rw [List.filterMap_cons_none hpv]
    | some s0 =>
      cases hidx : idx s0 with
      | some i =>
        simp only [upsertLoop, hpv, hidx]
        obtain ⟨hi, hpi⟩ := hg.1 s0 i hidx
        have hids : identities (current.set i v) = identities current :=
          identities_set hi hpi hpv
        have h := ih (current.set i v) idx (GoodIdx_set hg hidx hpv) (by rwa [hids])
        refine ⟨h.1, ?_⟩
        intro s
        rw [h.2 s, hids]
        unfold identities
        rw [List.filterMap_cons_some hpv]
        have hmem0 : s0 ∈ identities current := mem_identities_of_getElem hi hpi
        constructor
        · rintro (h1 | h2)
          · exact Or.inl h1
          · exact Or.inr (List.mem_cons_of_mem _ h2)
        · rintro (h1 | h2)
          · exact Or.inl h1
          · rcases List.mem_cons.mp h2 with he | hm
            · subst he
              exact Or.inl hmem0
            · exact Or.inr hm
      | none =>
        simp only [upsertLoop, hpv, hidx]
        have hnotmem : s0 ∉ identities current := by
          intro hmem
          have := hg.2 s0 hmem
          rw [hidx] at this
          simp at this
        have hids : identities (current ++ [v]) = identities current ++ [s0] := by
          rw [identities_append_single, hpv]
          rfl
        have hnd2 : (identities (current ++ [v])).Nodup := by
          rw [hids]
          simp [List.nodup_append, hnd, hnotmem]
        have h := ih (current ++ [v]) (idxInsert idx s0 current.length)
          (GoodIdx_append_new hg hpv hidx) hnd2
        refine ⟨h.1, ?_⟩
        intro s
        rw [h.2 s, hids]
        unfold identities
        rw [List.filterMap_cons_some hpv]
        simp only [List.mem_append, List.mem_cons, List.not_mem_nil, or_false]
        tauto

/-- C2: if the stored sequence has at most one record per non-null
identity, then after `save_to_json` it still does, and the set of present
identities is exactly the union of the old ones and the new records'. -/
theorem C2_upsert_identity_invariant (current news : List Rec)
    (h : (identities current).Nodup) :
    (identities (save_to_json current news)).Nodup ∧
    (∀ s, s ∈ identities (save_to_json current news) ↔
      s ∈ identities current ∨ s ∈ identities news) :=
  upsertLoop_identities news current (buildIndex current) (GoodIdx_buildIndex current) h

/-- Witness for C2 on a concrete store and batch sharing the id "A1". -/
theorem C2_witness :
    (identities (save_to_json [recB2] [recA1v1, recA1v3])).Nodup ∧
    ("A1" ∈ identities (save_to_json [recB2] [recA1v1, recA1v3]) ↔
      "A1" ∈ identities [recB2] ∨ "A1" ∈ identities [recA1v1, recA1v3]) :=
  ⟨(C2_upsert_identity_invariant [recB2] [recA1v1, recA1v3] (by decide)).1,
   (C2_upsert_identity_invariant [recB2] [recA1v1, recA1v3] (by decide)).2 "A1"⟩

theorem save_single_some {current : List Rec} {r : Rec} {s : String} {i : Nat}
    (hr : pick_identity r = some s) (hidx : buildIndex current s = some i) :
    save_to_json current [r] = current.set i r := by
  unfold save_to_json
  simp only [upsertLoop, hr, hidx]

theorem save_single_none {current : List Rec} {r : Rec} {s : String}
    (hr : pick_identity r = some s) (hidx : buildIndex current s = none) :
    save_to_json current [r] = current ++ [r] := by
  unfold save_to_json
  simp only [upsertLoop, hr, hidx]

theorem buildIndex_eq_of_getElem {l : List Rec} (hnd : (identities l).Nodup)
    {i : Nat} (hi : i < l.length) {s : String}
    (hp : pick_identity (l.get ⟨i, hi⟩) = some s) :
    buildIndex l s = some i := by
  have hmem : s ∈ identities l := mem_identities_of_getElem hi hp
  have hsome := buildIndexAux_isSome hmem 0 (fun _ => none)
  cases hj : buildIndex l s with
  | none => unfold buildIndex at hj; rw [hj] at hsome; simp at hsome
  | some j =>
    obtain ⟨hjl, hpj⟩ := (GoodIdx_buildIndex l).1 s j hj
    rw [identities_nodup_unique_pos hnd hjl hi hpj hp]

/-- C3: upsert is last-write-wins and idempotent per identity — a second
save with the same identity leaves the count unchanged and the store as if
only the second save had happened — and the three-record scenario with ids
"A1", "B2", "A1" stores two records, the "A1" slot overwritten in place by
the third record. -/
theorem C3_upsert_last_write_wins :
    (∀ (current : List Rec) (r r2 : Rec) (s : String),
      (identities current).Nodup →
      pick_identity r = some s → pick_identity r2 = some s →
      save_to_json (save_to_json current [r]) [r2] = save_to_json current [r2] ∧
      (save_to_json (save_to_json current [r]) [r2]).length =
        (save_to_json current [r]).length) ∧
    save_to_json [] [recA1v1, recB2, recA1v3] = [recA1v3, recB2] := by
  constructor
  · intro current r r2 s hnd hr hr2
    cases hbi : buildIndex current s with
    | some i =>
      obtain ⟨hi, hpi⟩ := (GoodIdx_buildIndex current).1 s i hbi
      have h1 : save_to_json current [r] = current.set i r := save_single_some hr hbi
      have hids : identities (current.set i r) = identities current :=
        identities_set hi hpi hr
      have hnd1 : (identities (current.set i r)).Nodup := by rwa [hids]
      have hset_len : i < (current.set i r).length := by simpa using hi
      have hget : pick_identity ((current.set i r).get ⟨i, hset_len⟩) = some s := by
        simp only [List.get_eq_getElem, List.getElem_set_self]
        exact hr
      have hbi2 : buildIndex (current.set i r) s = some i :=
        buildIndex_eq_of_getElem hnd1 hset_len hget
      have h2 : save_to_json (current.set i r) [r2] = (current.set i r).set i r2 :=
        save_single_some hr2 hbi2
      have h3 : save_to_json current [r2] = current.set i r2 :=
        save_single_some hr2 hbi
      rw [h1, h2, h3, List.set_set]
      exact ⟨rfl, by simp⟩
    | none =>
      have h1 : save_to_json current [r] = current ++ [r] := save_single_none hr hbi
      have hnotmem : s ∉ identities current := by
        intro hmem
        have hsome := buildIndexAux_isSome hmem 0 (fun _ => none)
        unfold buildIndex at hbi
        rw [hbi] at hsome
        simp at hsome
      have hlen : current.length < (current ++ [r]).length := by simp
      have hget : pick_identity ((current ++ [r]).get ⟨current.length, hlen⟩) = some s := by
        simp only [List.get_eq_getElem, List.getElem_concat_length]
        exact hr
      have hnd1 : (identities (current ++ [r])).Nodup := by
        rw [identities_append_single, hr]
        simp [List.nodup_append, hnd, hnotmem]
      have hbi2 : buildIndex (current ++ [r]) s = some current.length :=
        buildIndex_eq_of_getElem hnd1 hlen hget
      have h2 : save_to_json (current ++ [r]) [r2] =
          (current ++ [r]).set current.length r2 :=
        save_single_some hr2 hbi2
      have h3 : save_to_json current [r2] = current ++ [r2] := save_single_none hr2 hbi
      have hset : (current ++ [r]).set current.length r2 = current ++ [r2] := by
        rw [List.set_append_right _ _ (le_refl _)]
        simp
      rw [h1, h2, h3, hset]
      exact ⟨rfl, by simp⟩
  · rfl

/-- Witness for C3: the idempotence part applied to a concrete store and
two records sharing id "A1". -/
theorem C3_witness :
    save_to_json (save_to_json [recB2] [recA1v1]) [recA1v3] =
      save_to_json [recB2] [recA1v3] ∧
    (save_to_json (save_to_json [recB2] [recA1v1]) [recA1v3]).length =
      (save_to_json [recB2] [recA1v1]).length :=
  C3_upsert_last_write_wins.1 [recB2] recA1v1 recA1v3 "A1" (by decide) rfl rfl
